import Mathlib

/-!
Shallow embedding of the roficlip clipboard manager (src/roficlip.py and the
older variant src/mclip.py).

Strings are modelled as lists of Unicode code points (`Str := List Nat`);
byte streams as lists of naturals below 256.  The record codec
(`ClipboardManager.read` / `ClipboardManager.write`), the ring update
(`sync_items`), the daemon callbacks (`cb_watcher`, `fifo_watcher`), the
persistent-edit workflow, and the selection-protocol formatting and decoding
are translated directly from the Python source.
-/

set_option maxRecDepth 8192

namespace Roficlip

/-- Strings are sequences of Unicode code points. -/
abbrev Str := List Nat

/-- A Unicode scalar value: a code point that is not a surrogate and is below
0x110000.  Python `str` values consist exactly of such code points for the
purposes of UTF-8 encoding and decoding. -/
def IsScalar (c : Nat) : Prop := c < 0xD800 ∨ (0xE000 ≤ c ∧ c < 0x110000)

instance (c : Nat) : Decidable (IsScalar c) := by
  unfold IsScalar; infer_instance

/-- Every code point of the string is a Unicode scalar value. -/
def ValidStr (s : Str) : Prop := ∀ c ∈ s, IsScalar c

instance (s : Str) : Decidable (ValidStr s) := by
  unfold ValidStr; infer_instance

/-- UTF-8 encoding of one scalar value, as Python `str.encode` emits it. -/
def utf8EncodeChar (c : Nat) : List Nat :=
  if c < 0x80 then [c]
  else if c < 0x800 then
    [0xC0 + c / 0x40, 0x80 + c % 0x40]
  else if c < 0x10000 then
    [0xE0 + c / 0x1000, 0x80 + c / 0x40 % 0x40, 0x80 + c % 0x40]
  else
    [0xF0 + c / 0x40000, 0x80 + c / 0x1000 % 0x40, 0x80 + c / 0x40 % 0x40,
     0x80 + c % 0x40]

/-- UTF-8 encoding of a whole string (Python `item.encode('utf-8')`). -/
def utf8Encode : Str → List Nat
  | [] => []
  | c :: cs => utf8EncodeChar c ++ utf8Encode cs

/-- Strict UTF-8 decoding (Python `bytes.decode('utf-8')`): rejects overlong
forms, surrogates, code points above 0x10FFFF and truncated sequences. -/
def utf8Decode : List Nat → Option Str
  | [] => some []
  | b0 :: rest =>
    if b0 < 0x80 then (utf8Decode rest).map (fun s => b0 :: s)
    else if b0 < 0xC0 then none
    else
      match rest with
      | [] => none
      | b1 :: rest1 =>
        if b0 < 0xE0 then
          if 0x80 ≤ b1 ∧ b1 < 0xC0 then
            if 0x80 ≤ (b0 - 0xC0) * 0x40 + (b1 - 0x80) then
              (utf8Decode rest1).map (fun s => ((b0 - 0xC0) * 0x40 + (b1 - 0x80)) :: s)
            else none
          else none
        else
          match rest1 with
          | [] => none
          | b2 :: rest2 =>
            if b0 < 0xF0 then
              if (0x80 ≤ b1 ∧ b1 < 0xC0) ∧ (0x80 ≤ b2 ∧ b2 < 0xC0) then
                if 0x800 ≤ (b0 - 0xE0) * 0x1000 + (b1 - 0x80) * 0x40 + (b2 - 0x80) ∧
                   ((b0 - 0xE0) * 0x1000 + (b1 - 0x80) * 0x40 + (b2 - 0x80) < 0xD800 ∨
                    0xE000 ≤ (b0 - 0xE0) * 0x1000 + (b1 - 0x80) * 0x40 + (b2 - 0x80)) then
                  (utf8Decode rest2).map
                    (fun s => ((b0 - 0xE0) * 0x1000 + (b1 - 0x80) * 0x40 + (b2 - 0x80)) :: s)
                else none
              else none
            else
              match rest2 with
              | [] => none
              | b3 :: rest3 =>
                if (0x80 ≤ b1 ∧ b1 < 0xC0) ∧ (0x80 ≤ b2 ∧ b2 < 0xC0) ∧
                   (0x80 ≤ b3 ∧ b3 < 0xC0) then
                  if 0x10000 ≤ (b0 - 0xF0) * 0x40000 + (b1 - 0x80) * 0x1000 +
                        (b2 - 0x80) * 0x40 + (b3 - 0x80) ∧
                     (b0 - 0xF0) * 0x40000 + (b1 - 0x80) * 0x1000 +
                        (b2 - 0x80) * 0x40 + (b3 - 0x80) < 0x110000 ∧
                     b0 < 0xF8 then
                    (utf8Decode rest3).map
                      (fun s => ((b0 - 0xF0) * 0x40000 + (b1 - 0x80) * 0x1000 +
                        (b2 - 0x80) * 0x40 + (b3 - 0x80)) :: s)
                  else none
                else none

theorem utf8Decode_encode_cons (c : Nat) (hc : IsScalar c) (bs : List Nat) :
    utf8Decode (utf8EncodeChar c ++ bs) = (utf8Decode bs).map (fun s => c :: s) := by
  rcases Nat.lt_or_ge c 0x80 with h1 | h1
  · rw [utf8EncodeChar, if_pos h1]
    rw [List.cons_append, List.nil_append, utf8Decode.eq_def]
    dsimp only
    rw [if_pos h1]
  · rcases Nat.lt_or_ge c 0x800 with h2 | h2
    · rw [utf8EncodeChar, if_neg (by omega), if_pos h2]
      rw [List.cons_append, List.cons_append, List.nil_append, utf8Decode.eq_def]
      dsimp only
      rw [if_neg (by omega), if_neg (by omega), if_pos (by omega),
        if_pos (by constructor <;> omega), if_pos (by omega)]
      have hcp : (0xC0 + c / 0x40 - 0xC0) * 0x40 + (0x80 + c % 0x40 - 0x80) = c := by
        omega
      rw [hcp]
    · rcases Nat.lt_or_ge c 0x10000 with h3 | h3
      · rw [utf8EncodeChar, if_neg (by omega), if_neg (by omega), if_pos h3]
        rw [List.cons_append, List.cons_append, List.cons_append, List.nil_append,
          utf8Decode.eq_def]
        dsimp only
        rw [if_neg (by omega), if_neg (by omega), if_neg (by omega),
          if_pos (by omega),
          if_pos (by exact ⟨⟨by omega, by omega⟩, by omega, by omega⟩)]
        have hcp : (0xE0 + c / 0x1000 - 0xE0) * 0x1000 +
            (0x80 + c / 0x40 % 0x40 - 0x80) * 0x40 + (0x80 + c % 0x40 - 0x80) = c := by
          omega
        rw [hcp, if_pos (by rcases hc with h | h <;> constructor <;> omega)]
      · rw [utf8EncodeChar, if_neg (by omega), if_neg (by omega), if_neg (by omega)]
        rw [List.cons_append, List.cons_append, List.cons_append, List.cons_append,
          List.nil_append, utf8Decode.eq_def]
        dsimp only
        have hcub : c < 0x110000 := by rcases hc with h | h <;> omega
        rw [if_neg (by omega), if_neg (by omega), if_neg (by omega),
          if_neg (by omega),
          if_pos (by exact ⟨⟨by omega, by omega⟩, ⟨by omega, by omega⟩,
            by omega, by omega⟩)]
        have hcp : (0xF0 + c / 0x40000 - 0xF0) * 0x40000 +
            (0x80 + c / 0x1000 % 0x40 - 0x80) * 0x1000 +
            (0x80 + c / 0x40 % 0x40 - 0x80) * 0x40 + (0x80 + c % 0x40 - 0x80) = c := by
          omega
        rw [hcp, if_pos (by exact ⟨by omega, by omega, by omega⟩)]

theorem utf8Decode_encode (s : Str) (hs : ValidStr s) :
    utf8Decode (utf8Encode s) = some s := by
  induction s with
  | nil => rfl
  | cons c cs ih =>
    rw [utf8Encode, utf8Decode_encode_cons c (hs c (List.mem_cons_self c cs)),
      ih (fun x hx => hs x (List.mem_cons_of_mem c hx))]
    rfl

/-- The four big-endian bytes of a 32-bit length field, as
Python `struct.pack` with format `>i` lays them out for values below 2^31. -/
def packLen (n : Nat) : List Nat :=
  [n / 0x1000000 % 0x100, n / 0x10000 % 0x100, n / 0x100 % 0x100, n % 0x100]

/-- Python `struct.pack` with format `>i`: fails (struct.error) for values of
2^31 and above; the program only packs non-negative byte lengths. -/
def pack_i (n : Nat) : Option (List Nat) :=
  if n < 0x80000000 then some (packLen n) else none

/-- Python `struct.unpack` with format `>i` applied to exactly four bytes:
a big-endian signed 32-bit integer. -/
def unpack_i : List Nat → Int
  | [b0, b1, b2, b3] =>
    if b0 * 0x1000000 + b1 * 0x10000 + b2 * 0x100 + b3 < 0x80000000 then
      ((b0 * 0x1000000 + b1 * 0x10000 + b2 * 0x100 + b3 : Nat) : Int)
    else
      ((b0 * 0x1000000 + b1 * 0x10000 + b2 * 0x100 + b3 : Nat) : Int) - 0x100000000
  | _ => 0

/-- ClipboardManager.write: for each item emit the UTF-8 byte length as a
4-byte big-endian field followed by the UTF-8 bytes, in sequence order.
Returns none when struct.pack would raise (an item of 2^31 bytes or more). -/
def write : List Str → Option (List Nat)
  | [] => some []
  | s :: rest =>
    match pack_i (utf8Encode s).length, write rest with
    | some p, some r => some (p ++ (utf8Encode s ++ r))
    | _, _ => none

/-- Failure modes of ClipboardManager.read: struct.error from a length field
shorter than four bytes, or UnicodeDecodeError from payload bytes that are
not valid UTF-8.  The specification groups both as CorruptRecordError. -/
inductive ReadError where
  | structError : ReadError
  | unicodeError : ReadError
deriving DecidableEq

/-- ClipboardManager.read: repeatedly read a 4-byte length field and then
that many payload bytes, decoding them as UTF-8, until the input is
exhausted.  Mirrors the Python file-handle semantics: `file.read(k)` returns
at most `k` bytes, so a short final payload is consumed as-is, and a negative
unpacked length makes `file.read` consume the whole remainder. -/
def read (bytes : List Nat) : Except ReadError (List Str) :=
  if _h0 : bytes = [] then .ok []
  else if _h4 : bytes.length < 4 then .error .structError
  else if unpack_i (bytes.take 4) < 0 then
    match utf8Decode (bytes.drop 4) with
    | none => .error .unicodeError
    | some s => .ok [s]
  else
    match utf8Decode ((bytes.drop 4).take (unpack_i (bytes.take 4)).toNat) with
    | none => .error .unicodeError
    | some s =>
      (read ((bytes.drop 4).drop (unpack_i (bytes.take 4)).toNat)).map
        (fun l => s :: l)
termination_by bytes.length
decreasing_by
  simp only [List.length_drop]
  omega

theorem unpack_packLen (n : Nat) (h : n < 0x80000000) :
    unpack_i (packLen n) = (n : Int) := by
  rw [packLen, unpack_i]
  rw [if_pos (by omega)]
  congr 1
  omega

theorem read_nil : read [] = .ok [] := by
  rw [read]
  rfl

theorem read_record_append (s : Str) (hs : ValidStr s)
    (hl : (utf8Encode s).length < 0x80000000) (r : List Nat) :
    read (packLen (utf8Encode s).length ++ (utf8Encode s ++ r)) =
      (read r).map (fun l => s :: l) := by
  have hplen : (packLen (utf8Encode s).length).length = 4 := rfl
  have htake : (packLen (utf8Encode s).length ++ (utf8Encode s ++ r)).take 4 =
      packLen (utf8Encode s).length := List.take_left' hplen
  have hdrop : (packLen (utf8Encode s).length ++ (utf8Encode s ++ r)).drop 4 =
      utf8Encode s ++ r := List.drop_left' hplen
  rw [read]
  rw [dif_neg (by simp [packLen]),
    dif_neg (by
      simp only [packLen, List.length_append, List.length_cons, List.length_nil]
      omega)]
  rw [htake, hdrop, unpack_packLen _ hl]
  rw [if_neg (by omega)]
  have htn : ((utf8Encode s).length : Int).toNat = (utf8Encode s).length := rfl
  rw [htn, List.take_left, List.drop_left, utf8Decode_encode s hs]

theorem read_write_append (xs : List Str) (hv : ∀ s ∈ xs, ValidStr s)
    (bs : List Nat) (hw : write xs = some bs) (r : List Nat) :
    read (bs ++ r) = (read r).map (fun l => xs ++ l) := by
  induction xs generalizing bs with
  | nil =>
    rw [write] at hw
    cases hw
    simp only [List.nil_append]
    cases hr : read r <;> rfl
  | cons s rest ih =>
    rw [write] at hw
    rcases hp : pack_i (utf8Encode s).length with _ | p <;> rw [hp] at hw
    · exact absurd hw (by simp)
    rcases hrest : write rest with _ | br <;> rw [hrest] at hw
    · exact absurd hw (by simp)
    simp only [Option.some.injEq] at hw
    subst hw
    have hl : (utf8Encode s).length < 0x80000000 := by
      by_contra hge
      rw [pack_i, if_neg hge] at hp
      exact Option.noConfusion hp
    have hpeq : p = packLen (utf8Encode s).length := by
      rw [pack_i, if_pos hl] at hp
      exact (Option.some.injEq _ _ ▸ hp.symm)
    subst hpeq
    have hassoc : (packLen (utf8Encode s).length ++ (utf8Encode s ++ br)) ++ r =
        packLen (utf8Encode s).length ++ (utf8Encode s ++ (br ++ r)) := by
      simp [List.append_assoc]
    rw [hassoc,
      read_record_append s (hv s (List.mem_cons_self s rest)) hl (br ++ r),
      ih (fun x hx => hv x (List.mem_cons_of_mem s hx)) br hrest]
    cases read r <;> rfl

/-- C1: for every ordered sequence of valid UTF-8 strings `xs`, decoding the
bytes produced by encoding `xs` yields `xs` again; this holds for the empty
sequence (whose encoding is the empty byte string) and for strings containing
the configured newline-substitution character. -/
theorem C1_encode_decode_roundtrip (xs : List Str) (hv : ∀ s ∈ xs, ValidStr s)
    (bs : List Nat) (hw : write xs = some bs) : read bs = .ok xs := by
  have h := read_write_append xs hv bs hw []
  rw [List.append_nil, read_nil] at h
  rw [h]
  show Except.ok (xs ++ []) = Except.ok xs
  rw [List.append_nil]

/-- Witness for C1 at a concrete input: the two-string sequence whose first
entry contains the default newline-substitution character U+00AC, the empty
string as second entry, and separately the empty sequence. -/
theorem C1_encode_decode_roundtrip_witness :
    read [0, 0, 0, 3, 194, 172, 97, 0, 0, 0, 0] = .ok [[172, 97], []] ∧
    read [] = .ok ([] : List Str) :=
  ⟨C1_encode_decode_roundtrip [[172, 97], []] (by decide)
      [0, 0, 0, 3, 194, 172, 97, 0, 0, 0, 0] rfl,
    C1_encode_decode_roundtrip [] (by simp) [] rfl⟩

/-- C3 counterexample: a 4-byte length field declaring 5 payload bytes,
followed by only the 3 bytes of "abc", decodes successfully to the truncated
entry "abc" instead of failing, contradicting the claim that decode never
silently returns a truncated result. -/
theorem C3_truncated_payload_counterexample :
    read [0, 0, 0, 5, 97, 98, 99] = .ok [[97, 98, 99]] := by
  have h1 : List.take 4 [0, 0, 0, 5, 97, 98, 99] = [0, 0, 0, 5] := rfl
  have h2 : List.drop 4 [0, 0, 0, 5, 97, 98, 99] = [97, 98, 99] := rfl
  have h3 : unpack_i [0, 0, 0, 5] = (5 : Int) := rfl
  rw [read, dif_neg (by simp), dif_neg (by simp), h1, h2, h3,
    if_neg (by omega)]
  have h4 : List.take (5 : Int).toNat [97, 98, 99] = [97, 98, 99] := rfl
  have h5 : utf8Decode [97, 98, 99] = some [97, 98, 99] := rfl
  have h6 : List.drop (5 : Int).toNat [97, 98, 99] = [] := rfl
  rw [h4, h5, h6, read_nil]
  rfl

/-- C3 amended: after a stream of complete records, 1 to 3 leftover bytes
(a dangling partial length field) make decode fail; but a 4-byte length field
followed by fewer payload bytes than declared is not detected when the
available bytes are valid UTF-8: decode silently returns them as a final
truncated entry. -/
theorem C3_read_corrupt_behavior (xs : List Str) (hv : ∀ s ∈ xs, ValidStr s)
    (bs : List Nat) (hw : write xs = some bs) :
    (∀ l : List Nat, 1 ≤ l.length → l.length ≤ 3 →
      read (bs ++ l) = .error .structError) ∧
    (∀ n : Nat, ∀ payload : List Nat, ∀ s : Str,
      payload.length < n → n < 0x80000000 → utf8Decode payload = some s →
      read (bs ++ (packLen n ++ payload)) = .ok (xs ++ [s])) := by
  constructor
  · intro l h1 h3
    rw [read_write_append xs hv bs hw l]
    have hne : l ≠ [] := by
      intro e
      rw [e] at h1
      simp at h1
    have : read l = .error .structError := by
      rw [read, dif_neg hne, dif_pos (by omega)]
    rw [this]
    rfl
  · intro n payload s hlt hn hdec
    rw [read_write_append xs hv bs hw (packLen n ++ payload)]
    have hplen : (packLen n).length = 4 := rfl
    have hstep : read (packLen n ++ payload) = .ok [s] := by
      rw [read,
        dif_neg (by simp [packLen]),
        dif_neg (by
          simp only [packLen, List.length_append, List.length_cons,
            List.length_nil]
          omega),
        List.take_left' hplen, List.drop_left' hplen, unpack_packLen n hn,
        if_neg (by omega)]
      have htn : ((n : Nat) : Int).toNat = n := by omega
      rw [htn, List.take_of_length_le (Nat.le_of_lt hlt), hdec,
        List.drop_eq_nil_of_le (Nat.le_of_lt hlt), read_nil]
      rfl
    rw [hstep]
    rfl

/-- ClipboardManager.sync_items: move-to-front-with-dedup update of an item
list against the current clipboard value.  `clip` is the result of
`wait_for_text` (None or a string); an empty string is falsy in Python, so
both cases leave the list untouched.  Returns whether the list was modified
together with the updated list. -/
def sync_items (clip : Option Str) (items : List Str) : Bool × List Str :=
  match clip with
  | none => (false, items)
  | some c =>
    if c = [] then (false, items)
    else
      match items with
      | [] => (true, [c])
      | x :: xs =>
        if c = x then (false, x :: xs)
        else (true, c :: (if c ∈ x :: xs then (x :: xs).erase c else x :: xs))

theorem erase_ite (c : Str) (l : List Str) :
    (if c ∈ l then l.erase c else l) = l.erase c := by
  split
  · rfl
  · rw [List.erase_of_not_mem (by assumption)]

theorem sync_items_nil (c : Str) :
    sync_items (some c) [] = if c = [] then (false, []) else (true, [c]) := by
  rw [sync_items]

theorem sync_items_cons (c x : Str) (xs : List Str) :
    sync_items (some c) (x :: xs) =
      if c = [] then (false, x :: xs)
      else if c = x then (false, x :: xs)
      else (true, c :: (x :: xs).erase c) := by
  rw [sync_items]
  by_cases hc : c = []
  · rw [if_pos hc, if_pos hc]
  · rw [if_neg hc, if_neg hc]
    by_cases hcx : c = x
    · rw [if_pos hcx, if_pos hcx]
    · rw [if_neg hcx, if_neg hcx, erase_ite]

/-- ClipboardManager.cb_watcher: poll the clipboard, sync into the history
ring, and on modification truncate the ring to ring_size and rewrite the ring
database.  Returns the new in-memory ring together with the file content
written this tick (none when nothing was written). -/
def cb_watcher (ringSize : Nat) (clip : Option Str) (ring : List Str) :
    List Str × Option (List Str) :=
  if (sync_items clip ring).1 then
    ((sync_items clip ring).2.take ringSize,
      some ((sync_items clip ring).2.take ringSize))
  else (ring, none)

/-- ClipboardManager.persistent_remove: drop the current clipboard text from
the persistent store when it is a non-empty member, rewriting the database.
Returns the new store and the written file content. -/
def persistent_remove (clip : Option Str) (persist : List Str) :
    List Str × Option (List Str) :=
  match clip with
  | none => (persist, none)
  | some c =>
    if c ≠ [] ∧ c ∈ persist then (persist.erase c, some (persist.erase c))
    else (persist, none)

/-- One line of the temporary file as re-read by persistent_edit: internal
newlines are deleted and the newline-substitution character is mapped back to
a newline (the two `replace` calls of the Python source). -/
def edit_line (nl : Nat) (l : Str) : Str :=
  (l.filter (fun ch => ch != 10)).map (fun ch => if ch = nl then 10 else ch)

/-- ClipboardManager.persistent_edit, observed after the external editor ran:
when the store was non-empty (otherwise the editor is never invoked), the
editor exited 0 and the re-read temporary file holds at least one line, the
store is replaced wholesale by the processed lines and written out; in every
other case nothing changes.  `lines` is the `splitlines()` result of the
re-read file. -/
def persistent_edit (nl : Nat) (persist : List Str) (exitCode : Nat)
    (lines : List Str) : List Str × Option (List Str) :=
  if persist = [] then (persist, none)
  else if exitCode ≠ 0 then (persist, none)
  else if lines = [] then (persist, none)
  else (lines.map (edit_line nl), some (lines.map (edit_line nl)))

/-- C2: sync is a no-op returning false for a missing or empty candidate and
when the candidate equals the current head; otherwise it removes the existing
occurrence of the candidate if present, inserts it at position 0 and returns
true — so the final placement never depends on the prior position — and the
dedup example of the spec holds. -/
theorem C2_sync_items_spec (c : Str) (items : List Str) :
    sync_items none items = (false, items) ∧
    (c = [] → sync_items (some c) items = (false, items)) ∧
    (items.head? = some c → sync_items (some c) items = (false, items)) ∧
    (c ≠ [] → items.head? ≠ some c →
      sync_items (some c) items = (true, c :: items.erase c)) ∧
    sync_items (some [98]) [[97], [98], [99]] = (true, [[98], [97], [99]]) := by
  refine ⟨rfl, ?_, ?_, ?_, by decide⟩
  · intro h
    subst h
    simp [sync_items]
  · cases items with
    | nil => intro h; simp at h
    | cons x xs =>
      intro h
      simp only [List.head?_cons, Option.some.injEq] at h
      subst h
      rw [sync_items_cons]
      by_cases hx : x = []
      · rw [if_pos hx]
      · rw [if_neg hx, if_pos rfl]
  · intro hc hh
    cases items with
    | nil =>
      rw [sync_items_nil, if_neg hc]
      rfl
    | cons x xs =>
      have hcx : c ≠ x := by
        intro e
        apply hh
        rw [List.head?_cons, e]
      rw [sync_items_cons, if_neg hc, if_neg hcx]

/-- Witness for C2 at a concrete mutating input. -/
theorem C2_sync_items_spec_witness :
    sync_items (some [97]) [[98]] = (true, [[97], [98]]) :=
  (C2_sync_items_spec [97] [[98]]).2.2.2.1 (by decide) (by decide)

/-- C4 counterexample: from the duplicate-free persistent store containing
only "b", an edit that exits 0 with the two identical lines "a", "a" installs
a store holding the value "a" twice, so the wholesale replace of the edit
workflow does not preserve the no-duplicates invariant. -/
theorem C4_edit_duplicates_counterexample :
    ([[98]] : List Str).Nodup ∧
    (persistent_edit 172 [[98]] 0 [[97], [97]]).1 = [[97], [97]] ∧
    ¬ ((persistent_edit 172 [[98]] 0 [[97], [97]]).1).Nodup := by
  refine ⟨by decide, by decide, by decide⟩

/-- C4 amended: sync and remove preserve the no-duplicates invariant; the
edit workflow's wholesale replace installs the processed lines verbatim, so
it preserves the invariant only when those lines are pairwise distinct. -/
theorem C4_nodup_preservation (items : List Str) (h : items.Nodup)
    (clip : Option Str) (v : Str) (nl exitCode : Nat) (lines : List Str) :
    ((sync_items clip items).2).Nodup ∧
    ((persistent_remove (some v) items).1).Nodup ∧
    ((lines.map (edit_line nl)).Nodup →
      ((persistent_edit nl items exitCode lines).1).Nodup) := by
  refine ⟨?_, ?_, ?_⟩
  · rcases clip with _ | c
    · exact h
    · rcases items with _ | ⟨x, xs⟩
      · rw [sync_items_nil]
        split
        · exact h
        · simp
      · rw [sync_items_cons]
        split
        · exact h
        · split
          · exact h
          · exact List.nodup_cons.mpr ⟨h.not_mem_erase, h.erase c⟩
  · rw [persistent_remove]
    split
    · exact h.erase v
    · exact h
  · intro hl
    rw [persistent_edit]
    split
    · exact h
    · split
      · exact h
      · split
        · exact h
        · exact hl

/-- Witness for C4 at concrete inputs. -/
theorem C4_nodup_preservation_witness :
    ((sync_items (some [99]) [[97], [98]]).2).Nodup ∧
    ((persistent_remove (some [97]) [[97], [98]]).1).Nodup ∧
    ((persistent_edit 172 [[97], [98]] 0 [[100]]).1).Nodup :=
  ⟨(C4_nodup_preservation [[97], [98]] (by decide) (some [99]) [97] 172 0
      [[100]]).1,
    (C4_nodup_preservation [[97], [98]] (by decide) (some [99]) [97] 172 0
      [[100]]).2.1,
    (C4_nodup_preservation [[97], [98]] (by decide) (some [99]) [97] 172 0
      [[100]]).2.2 (by decide)⟩

/-- C5: a clipboard-poll step that mutates the ring leaves it truncated to
the first ring_size entries (the newest ones; older entries beyond capacity
are dropped), hence of length at most ring_size, and the spec's capacity
example with capacity 2 holds. -/
theorem C5_ring_capacity (ringSize : Nat) (clip : Option Str)
    (ring : List Str) (hm : (sync_items clip ring).1 = true) :
    cb_watcher ringSize clip ring =
      ((sync_items clip ring).2.take ringSize,
        some ((sync_items clip ring).2.take ringSize)) ∧
    (cb_watcher ringSize clip ring).1.length ≤ ringSize ∧
    cb_watcher 2 (some [99]) [[97], [98]] = ([[99], [97]], some [[99], [97]]) := by
  refine ⟨by rw [cb_watcher, if_pos hm], ?_, by decide⟩
  rw [cb_watcher, if_pos hm]
  simp only [List.length_take]
  omega

/-- Witness for C5 at the spec's capacity example. -/
theorem C5_ring_capacity_witness :
    cb_watcher 2 (some [99]) [[97], [98]] = ([[99], [97]], some [[99], [97]]) ∧
    (cb_watcher 2 (some [99]) [[97], [98]]).1.length ≤ 2 :=
  ⟨(C5_ring_capacity 2 (some [99]) [[97], [98]] (by decide)).1,
    (C5_ring_capacity 2 (some [99]) [[97], [98]] (by decide)).2.1⟩

/-- Outcome of the non-blocking os.read call on the fifo handle. -/
inductive ReadOutcome where
  | ok (bs : List Nat) : ReadOutcome
  | err (errno : Nat) : ReadOutcome

/-- Linux errno for a non-blocking read with no data; EAGAIN and EWOULDBLOCK
share the value 11 and the source checks for either. -/
def EAGAIN : Nat := 11

/-- Alias errno checked alongside EAGAIN by the source. -/
def EWOULDBLOCK : Nat := 11

/-- Failures that can escape ClipboardManager.fifo_watcher: an OSError other
than would-block, or a UnicodeDecodeError from the fifo bytes. -/
inductive FifoError where
  | osError (errno : Nat) : FifoError
  | unicodeError : FifoError
deriving DecidableEq

/-- ClipboardManager.fifo_watcher: non-blocking read of the fifo.  On
EAGAIN/EWOULDBLOCK the payload is None and the tick does nothing; any other
OSError re-raises; empty bytes are falsy and do nothing; a non-empty payload
is decoded as UTF-8 and written to the clipboard.  The history ring is
threaded through unchanged (the callback never touches it); the second
component is the clipboard write performed this tick. -/
def fifo_watcher (r : ReadOutcome) (ring : List Str) :
    Except FifoError (List Str × Option Str) :=
  match r with
  | .err e =>
    if e = EAGAIN ∨ e = EWOULDBLOCK then .ok (ring, none)
    else .error (.osError e)
  | .ok bs =>
    if bs = [] then .ok (ring, none)
    else
      match utf8Decode bs with
      | some s => .ok (ring, some s)
      | none => .error .unicodeError

/-- C6: a would-block result of the non-blocking channel read is not an error
and yields no input for that tick, while any other I/O failure on the read
propagates out of the loop. -/
theorem C6_would_block_not_error (ring : List Str) (e : Nat) :
    fifo_watcher (.err EAGAIN) ring = .ok (ring, none) ∧
    fifo_watcher (.err EWOULDBLOCK) ring = .ok (ring, none) ∧
    (e ≠ EAGAIN → e ≠ EWOULDBLOCK →
      fifo_watcher (.err e) ring = .error (.osError e)) := by
  refine ⟨rfl, rfl, ?_⟩
  intro h1 h2
  rw [fifo_watcher, if_neg (fun o => o.elim h1 h2)]

/-- Witness for C6: errno 11 would-block versus errno 5 (EIO). -/
theorem C6_would_block_not_error_witness :
    fifo_watcher (.err 11) [[97]] = .ok ([[97]], none) ∧
    fifo_watcher (.err 5) [[97]] = .error (.osError 5) :=
  ⟨(C6_would_block_not_error [[97]] 5).1,
    (C6_would_block_not_error [[97]] 5).2.2 (by decide) (by decide)⟩

/-- C7: when the channel yields a payload decoding to p, the clipboard
write_text is invoked with p and the history ring is unchanged by the channel
event; only the clipboard-poll callback mutates the ring. -/
theorem C7_channel_writes_clipboard (ring : List Str) (bs : List Nat)
    (p : Str) (hne : bs ≠ []) (hdec : utf8Decode bs = some p) :
    fifo_watcher (.ok bs) ring = .ok (ring, some p) := by
  rw [fifo_watcher, if_neg hne, hdec]

/-- Witness for C7: the payload "hello" is placed on the clipboard and the
ring is untouched. -/
theorem C7_channel_writes_clipboard_witness :
    fifo_watcher (.ok [104, 101, 108, 108, 111]) [[97]] =
      .ok ([[97]], some [104, 101, 108, 108, 111]) :=
  C7_channel_writes_clipboard [[97]] [104, 101, 108, 108, 111]
    [104, 101, 108, 108, 111] (by decide) rfl

/-- C9 counterexample: with the non-empty store containing "a", an editor run
exiting 0 whose re-read file is empty leaves the store at "a" and writes
nothing, instead of replacing the store wholesale with the empty sequence of
re-read lines. -/
theorem C9_empty_file_counterexample :
    persistent_edit 172 [[97]] 0 [] = ([[97]], none) ∧
    ([[97]] : List Str) ≠ [] :=
  ⟨rfl, by decide⟩

/-- C9 amended: on exit code 0 with a non-empty store, if the re-read file
holds at least one line the store is replaced wholesale by the processed
lines (placeholders substituted back to newlines) and the new contents are
written to the backing file; an empty re-read file leaves the store
untouched and writes nothing. -/
theorem C9_persistent_edit_replace (nl : Nat) (persist : List Str)
    (lines : List Str) (hp : persist ≠ []) :
    (lines ≠ [] → persistent_edit nl persist 0 lines =
      (lines.map (edit_line nl), some (lines.map (edit_line nl)))) ∧
    persistent_edit nl persist 0 [] = (persist, none) := by
  constructor
  · intro hl
    rw [persistent_edit, if_neg hp, if_neg (by simp), if_neg hl]
  · rw [persistent_edit, if_neg hp, if_neg (by simp), if_pos rfl]

/-- Witness for C9: a line containing the placeholder U+00AC gets it mapped
back to a newline, and the empty re-read file leaves the store unchanged. -/
theorem C9_persistent_edit_replace_witness :
    persistent_edit 172 [[97]] 0 [[172, 98]] =
      ([[10, 98]], some [[10, 98]]) ∧
    persistent_edit 172 [[97]] 0 [] = ([[97]], none) :=
  ⟨(C9_persistent_edit_replace 172 [[97]] [[172, 98]] (by decide)).1
      (by decide),
    (C9_persistent_edit_replace 172 [[97]] [[172, 98]] (by decide)).2⟩

/-- One iteration of the ring update written out inline in the old variant's
daemon loop (mclip.py, ClipboardManager.daemon): the move-to-front-with-dedup
conditional, followed by writing the first CLIP_LIMIT entries to the history
file while the in-memory list stays untruncated. -/
def mclip_daemon_step (limit : Nat) (clip : Option Str) (clips : List Str) :
    List Str × Option (List Str) :=
  match clip with
  | none => (clips, none)
  | some c =>
    if c = [] then (clips, none)
    else
      match clips with
      | [] => ([c], some ([c].take limit))
      | x :: xs =>
        if c = x then (clips, none)
        else
          (c :: (if c ∈ x :: xs then (x :: xs).erase c else x :: xs),
            some ((c :: (if c ∈ x :: xs then (x :: xs).erase c
              else x :: xs)).take limit))

/-- C10: for every prior history list, clipboard value and capacity, the old
variant's inline daemon update and the new variant's sync-then-truncate
persist the same list; the old variant keeps the untruncated sync result in
memory while the new variant truncates its in-memory ring as well (and
leaves it untouched on a non-mutating tick). -/
theorem C10_mclip_roficlip_agree (limit : Nat) (clip : Option Str)
    (items : List Str) :
    (mclip_daemon_step limit clip items).2 = (cb_watcher limit clip items).2 ∧
    (mclip_daemon_step limit clip items).1 = (sync_items clip items).2 ∧
    ((sync_items clip items).1 = true →
      (cb_watcher limit clip items).1 =
        ((sync_items clip items).2).take limit) ∧
    ((sync_items clip items).1 = false →
      (cb_watcher limit clip items).1 = items) := by
  rcases clip with _ | c
  · exact ⟨rfl, rfl, by intro h; simp [sync_items] at h, fun _ => rfl⟩
  · rcases items with _ | ⟨x, xs⟩
    · by_cases hc : c = []
      · simp [mclip_daemon_step, cb_watcher, sync_items_nil, hc]
      · simp [mclip_daemon_step, cb_watcher, sync_items_nil, hc]
    · by_cases hc : c = []
      · simp [mclip_daemon_step, cb_watcher, sync_items_cons, hc]
      · by_cases hcx : c = x
        · simp [mclip_daemon_step, cb_watcher, sync_items_cons, hc, hcx]
        · have hs : sync_items (some c) (x :: xs) =
              (true, c :: (x :: xs).erase c) := by
            rw [sync_items_cons, if_neg hc, if_neg hcx]
          have hm : mclip_daemon_step limit (some c) (x :: xs) =
              (c :: (x :: xs).erase c,
                some ((c :: (x :: xs).erase c).take limit)) := by
            rw [mclip_daemon_step, if_neg hc, if_neg hcx, erase_ite]
          have hcb : cb_watcher limit (some c) (x :: xs) =
              ((c :: (x :: xs).erase c).take limit,
                some ((c :: (x :: xs).erase c).take limit)) := by
            rw [cb_watcher, hs]
            rfl
          rw [hm, hcb, hs]
          exact ⟨rfl, rfl, fun _ => rfl, fun hf => Bool.noConfusion hf⟩

/-- Witness for C10 at a concrete mutating tick with capacity 1. -/
theorem C10_mclip_roficlip_agree_witness :
    (mclip_daemon_step 1 (some [99]) [[97]]).2 =
      (cb_watcher 1 (some [99]) [[97]]).2 ∧
    (mclip_daemon_step 1 (some [99]) [[97]]).1 =
      (sync_items (some [99]) [[97]]).2 ∧
    (cb_watcher 1 (some [99]) [[97]]).1 =
      ((sync_items (some [99]) [[97]]).2).take 1 :=
  ⟨(C10_mclip_roficlip_agree 1 (some [99]) [[97]]).1,
    (C10_mclip_roficlip_agree 1 (some [99]) [[97]]).2.1,
    (C10_mclip_roficlip_agree 1 (some [99]) [[97]]).2.2.1 (by decide)⟩

/-- Witness for the amended C3: after the complete record "a", two dangling
bytes make decode fail, while a prefix declaring 5 bytes followed by the
single byte "b" is silently accepted as a truncated final entry. -/
theorem C3_read_corrupt_behavior_witness :
    read [0, 0, 0, 1, 97, 0, 0] = .error .structError ∧
    read [0, 0, 0, 1, 97, 0, 0, 0, 5, 98] = .ok [[97], [98]] :=
  ⟨(C3_read_corrupt_behavior [[97]] (by decide) [0, 0, 0, 1, 97] rfl).1
      [0, 0] (by decide) (by decide),
    (C3_read_corrupt_behavior [[97]] (by decide) [0, 0, 0, 1, 97] rfl).2
      5 [98] [98] (by decide) (by decide) rfl⟩

/-- Little-endian decimal digits (as ASCII codes) of a number; empty for 0. -/
def digitsLE (n : Nat) : List Nat :=
  if h : n = 0 then [] else (48 + n % 10) :: digitsLE (n / 10)
termination_by n
decreasing_by exact Nat.div_lt_self (Nat.pos_of_ne_zero h) (by norm_num)

/-- Decimal rendering of a natural number, as Python str(index) emits it. -/
def natToStr (n : Nat) : Str :=
  if n = 0 then [48] else (digitsLE n).reverse

/-- Python int() applied to the digit strings this protocol produces: the
value of a non-empty all-digit string, None (ValueError) otherwise. -/
def parseNat (s : Str) : Option Nat :=
  if s ≠ [] ∧ ∀ c ∈ s, 48 ≤ c ∧ c ≤ 57 then
    some (s.foldl (fun a c => a * 10 + (c - 48)) 0)
  else none

theorem digitsLE_digits (n : Nat) : ∀ c ∈ digitsLE n, 48 ≤ c ∧ c ≤ 57 := by
  induction n using Nat.strong_induction_on with
  | _ n ih =>
    rw [digitsLE]
    split
    · simp
    · intro c hc
      rcases List.mem_cons.mp hc with h | h
      · subst h
        constructor <;> omega
      · exact ih (n / 10)
          (Nat.div_lt_self (Nat.pos_of_ne_zero (by assumption)) (by norm_num))
          c h

theorem digitsLE_ne_nil (n : Nat) (h : n ≠ 0) : digitsLE n ≠ [] := by
  rw [digitsLE, dif_neg h]
  simp

theorem digitsLE_foldr (n : Nat) :
    (digitsLE n).foldr (fun c a => a * 10 + (c - 48)) 0 = n := by
  induction n using Nat.strong_induction_on with
  | _ n ih =>
    rw [digitsLE]
    split
    · simp only [List.foldr_nil]
      omega
    · rw [List.foldr_cons,
        ih (n / 10)
          (Nat.div_lt_self (Nat.pos_of_ne_zero (by assumption)) (by norm_num))]
      omega

theorem natToStr_digits (n : Nat) : ∀ c ∈ natToStr n, 48 ≤ c ∧ c ≤ 57 := by
  rw [natToStr]
  split
  · intro c hc
    simp only [List.mem_singleton] at hc
    subst hc
    omega
  · intro c hc
    exact digitsLE_digits n c (List.mem_reverse.mp hc)

theorem parseNat_natToStr (n : Nat) : parseNat (natToStr n) = some n := by
  rcases Nat.eq_zero_or_pos n with h0 | h0
  · subst h0
    rfl
  · have hne : natToStr n ≠ [] := by
      rw [natToStr, if_neg (by omega)]
      simp only [ne_eq, List.reverse_eq_nil_iff]
      exact digitsLE_ne_nil n (by omega)
    rw [parseNat, if_pos ⟨hne, natToStr_digits n⟩, natToStr,
      if_neg (by omega), List.foldl_reverse]
    exact congrArg some (digitsLE_foldr n)

theorem takeWhile_append_all (p : Nat → Bool) (l1 l2 : List Nat)
    (h : ∀ c ∈ l1, p c = true) :
    (l1 ++ l2).takeWhile p = l1 ++ l2.takeWhile p := by
  induction l1 with
  | nil => rfl
  | cons a t ih =>
    rw [List.cons_append, List.takeWhile_cons,
      if_pos (h a (List.mem_cons_self a t)), List.cons_append,
      ih (fun c hc => h c (List.mem_cons_of_mem a hc))]

theorem dropWhile_append_all (p : Nat → Bool) (l1 l2 : List Nat)
    (h : ∀ c ∈ l1, p c = true) :
    (l1 ++ l2).dropWhile p = l2.dropWhile p := by
  induction l1 with
  | nil => rfl
  | cons a t ih =>
    rw [List.cons_append, List.dropWhile_cons,
      if_pos (h a (List.mem_cons_self a t)),
      ih (fun c hc => h c (List.mem_cons_of_mem a hc))]

/-- The hidden row marker b'\0info\x1f' prepended to the decimal index by
show_items (ROFI_INFO in the source), as code points. -/
def ROFI_INFO : Str := [0, 105, 110, 102, 111, 31]

/-- The preview text of one show_items row in ring or persistent mode:
newlines replaced by the configured substitution character, the optional
comments-first reordering (text after the last '#' moved to the front behind
the comment character and an arrow), and truncation to the preview width. -/
def preview_of (scf : Bool) (commentChar nlChar previewWidth : Nat)
    (clip : Str) : Str :=
  let c := clip.map (fun ch => if ch = 10 then nlChar else ch)
  let c2 :=
    if scf ∧ 35 ∈ c then
      [commentChar] ++ (c.reverse.takeWhile (fun ch => ch != 35)).reverse ++
        [32, 10140, 32] ++
        ((c.reverse.dropWhile (fun ch => ch != 35)).drop 1).reverse
    else c
  c2.take previewWidth

/-- One full output line of show_items for the entry clip at position index
(ring and persistent modes): preview text, the hidden ROFI_INFO marker, then
the decimal index. -/
def format_line (scf : Bool) (commentChar nlChar previewWidth index : Nat)
    (clip : Str) : Str :=
  preview_of scf commentChar nlChar previewWidth clip ++ ROFI_INFO ++
    natToStr index

/-- Modelled from the spec: the launcher/menu capability of spec section 6.
rofi itself is not part of this repository; per the rofi-script convention
the spec relies on, the launcher splits a row at the first NUL byte, reads
the "info"-plus-unit-separator option that follows, and re-invokes the
program with the option value in the ROFI_INFO environment variable. -/
def rofi_echoed_info (line : Str) : Option Str :=
  match line.dropWhile (fun c => c != 0) with
  | 0 :: r =>
    if r.take 5 = [105, 110, 102, 111, 31] then some (r.drop 5) else none
  | _ => none

/-- The environment channel of the __main__ dispatch:
int(os.getenv('ROFI_INFO')). -/
def decode_env (info : Str) : Option Nat := parseNat info

/-- One display line of the old variant's menu (mclip.py): the decimal
index, ": ", then the newline-flattened UTF-8 preview truncated to
STRING_LIMIT bytes. -/
def mclip_menu_line (limit index : Nat) (clip : Str) : List Nat :=
  natToStr index ++ [58, 32] ++
    (utf8Encode (clip.map (fun c => if c = 10 then 32 else c))).take limit

/-- The literal-argument channel of the old variant (mclip.py copy):
int(select[0:select.index(':')]); None when no colon is present (ValueError
from index) or the text before it is not a number. -/
def mclip_decode_selection (select : List Nat) : Option Nat :=
  if 58 ∈ select then parseNat (select.takeWhile (fun c => c != 58))
  else none

/-- ClipboardManager.copy_item reads items[index] to send it to the daemon:
the entry designated by the decoded selection. -/
def copy_item (items : List Str) (index : Nat) : Option Str := items.get? index

/-- C8: the selection produced from the formatted display line for the entry
at position i — echoed back either as the environment index the launcher
extracts from the hidden marker, or as the old variant's literal
index-colon-prefixed argument — decodes to exactly the 0-based index i,
which designates entry i for the dispatch. -/
theorem C8_selection_roundtrip (items : List Str) (i : Nat)
    (hlt : i < items.length) (scf : Bool) (cc nl pw limit : Nat)
    (hnul : 0 ∉ preview_of scf cc nl pw (items.get ⟨i, hlt⟩)) :
    (rofi_echoed_info
        (format_line scf cc nl pw i (items.get ⟨i, hlt⟩))).bind decode_env =
      some i ∧
    mclip_decode_selection (mclip_menu_line limit i (items.get ⟨i, hlt⟩)) =
      some i ∧
    copy_item items i = some (items.get ⟨i, hlt⟩) := by
  refine ⟨?_, ?_, List.get?_eq_get hlt⟩
  · have hline : format_line scf cc nl pw i (items.get ⟨i, hlt⟩) =
        preview_of scf cc nl pw (items.get ⟨i, hlt⟩) ++
          (0 :: ([105, 110, 102, 111, 31] ++ natToStr i)) := by
      rw [format_line, ROFI_INFO, List.append_assoc]
      rfl
    rw [rofi_echoed_info, hline,
      dropWhile_append_all _ _ _
        (fun c hc => by
          simp only [bne_iff_ne, ne_eq]
          intro e
          subst e
          exact hnul hc),
      List.dropWhile_cons]
    simp only [bne_self_eq_false, Bool.false_eq_true, if_false]
    have h5 : ([105, 110, 102, 111, 31] : List Nat).length = 5 := rfl
    rw [List.take_left' h5, List.drop_left' h5, if_pos rfl]
    exact parseNat_natToStr i
  · rw [mclip_decode_selection, mclip_menu_line,
      if_pos (by simp),
      List.append_assoc,
      takeWhile_append_all _ _ _
        (fun c hc => by
          have := natToStr_digits i c hc
          simp only [bne_iff_ne, ne_eq]
          omega),
      List.cons_append, List.takeWhile_cons]
    simp only [bne_self_eq_false, Bool.false_eq_true, if_false,
      List.append_nil]
    exact parseNat_natToStr i

/-- Witness for C8: entry "b" at index 1 of a two-entry ring with the default
configuration, and the old variant's line for the same entry. -/
theorem C8_selection_roundtrip_witness :
    (rofi_echoed_info (format_line false 169 172 100 1 [98])).bind decode_env =
      some 1 ∧
    mclip_decode_selection (mclip_menu_line 200 1 [98]) = some 1 ∧
    copy_item [[97], [98]] 1 = some [98] :=
  ⟨(C8_selection_roundtrip [[97], [98]] 1 (by decide) false 169 172 100 200
      (by decide)).1,
    (C8_selection_roundtrip [[97], [98]] 1 (by decide) false 169 172 100 200
      (by decide)).2.1,
    (C8_selection_roundtrip [[97], [98]] 1 (by decide) false 169 172 100 200
      (by decide)).2.2⟩

end Roficlip
